import Mathlib

/-!
Verification of the canonicalization engine in `src/pipeline/standardization.py`.

The Python module is embedded shallowly:
* Python strings are `String` / `List Char`; the whitespace class of the regex
  `\s` (and of `str.strip()`) is the concrete predicate `pyIsSpace`;
  `str.lower()` is modelled on the ASCII range by `pyToLower`.
* `re.sub(r'\s+', ' ', s).strip().lower()` is `pyClean`.
* `uuid.uuid5` is embedded down to SHA-1 (`sha1`), operating on byte lists.
* The DataFrame pipeline of `create_parent_child_master_table` is embedded as
  a function on `List RawRecord`; `pd.to_datetime(..., errors='coerce')` is an
  abstract parameter `parse : String → Option Nat` (`none` = `NaT`), and the
  module-level alias mapping is passed as an explicit parameter
  `mapping : List (String × List String)` (a Python dict in insertion order).
-/

namespace ProductMapping

/-- The set of characters matched by Python's regex class `\s` on `str` and
stripped by `str.strip()`: ASCII whitespace, the C1 separators, and the
Unicode space characters. -/
def pyIsSpace (c : Char) : Bool :=
  let n := c.toNat
  decide ((9 ≤ n ∧ n ≤ 13) ∨ n = 32 ∨ (28 ≤ n ∧ n ≤ 31) ∨ n = 0x85 ∨
    n = 0xA0 ∨ n = 0x1680 ∨ (0x2000 ≤ n ∧ n ≤ 0x200A) ∨ n = 0x2028 ∨
    n = 0x2029 ∨ n = 0x202F ∨ n = 0x205F ∨ n = 0x3000)

/-- Model of `str.lower()` restricted to its ASCII action: `'A'..'Z'` map to
`'a'..'z'`, every other character is left unchanged. -/
def pyToLower (c : Char) : Char :=
  if 65 ≤ c.toNat ∧ c.toNat ≤ 90 then Char.ofNat (c.toNat + 32) else c

/-- Model of `re.sub(r'\s+', ' ', ·)`: each maximal run of whitespace characters is
replaced by a single space.  The boolean flag records whether the previous
character belonged to a whitespace run that has already emitted its space. -/
def collapseWs : List Char → Bool → List Char
  | [], _ => []
  | c :: cs, inRun =>
    if pyIsSpace c then
      if inRun then collapseWs cs true else ' ' :: collapseWs cs true
    else c :: collapseWs cs false

/-- Remove trailing whitespace characters. -/
def dropTrailingWs (l : List Char) : List Char :=
  (l.reverse.dropWhile pyIsSpace).reverse

/-- Model of `str.strip()` on a character list: remove leading and trailing
whitespace. -/
def pyStripChars (l : List Char) : List Char :=
  dropTrailingWs (l.dropWhile pyIsSpace)

/-- Model of `str.strip()`. -/
def pyStrip (s : String) : String := ⟨pyStripChars s.data⟩

/-- Model of `re.sub(r'\s+', ' ', str(x)).strip().lower()` — the name-cleaning
expression used both in `_create_child_to_parent_map` and in the pipeline's
`cleaned_name` column. -/
def pyClean (s : String) : String :=
  ⟨(pyStripChars (collapseWs s.data false)).map pyToLower⟩

/-! ### UTF-8 and SHA-1 (the computation underlying `uuid.uuid5`) -/

/-- UTF-8 encoding of one code point (Python `str.encode('utf-8')`). -/
def utf8EncodeChar (c : Char) : List Nat :=
  let n := c.toNat
  if n < 0x80 then [n]
  else if n < 0x800 then
    [0xC0 ||| (n >>> 6), 0x80 ||| (n &&& 0x3F)]
  else if n < 0x10000 then
    [0xE0 ||| (n >>> 12), 0x80 ||| ((n >>> 6) &&& 0x3F), 0x80 ||| (n &&& 0x3F)]
  else
    [0xF0 ||| (n >>> 18), 0x80 ||| ((n >>> 12) &&& 0x3F),
     0x80 ||| ((n >>> 6) &&& 0x3F), 0x80 ||| (n &&& 0x3F)]

/-- UTF-8 encoding of a string as a byte list. -/
def utf8Encode (s : String) : List Nat :=
  (s.data.map utf8EncodeChar).flatten

/-- Truncation to a 32-bit word. -/
def w32 (n : Nat) : Nat := n % 4294967296

/-- Truncation to a byte. -/
def w8 (n : Nat) : Nat := n % 256

/-- Left rotation of a 32-bit word by `k`. -/
def rotl (k n : Nat) : Nat := w32 ((n <<< k) ||| (n >>> (32 - k)))

/-- SHA-1 padding: append `0x80`, zeros up to 56 mod 64, then the 64-bit
big-endian bit length. -/
def sha1Pad (msg : List Nat) : List Nat :=
  let L := msg.length
  let z := (119 - L % 64) % 64
  let bits := 8 * L
  msg ++ [0x80] ++ List.replicate z 0 ++
    [w8 (bits >>> 56), w8 (bits >>> 48), w8 (bits >>> 40), w8 (bits >>> 32),
     w8 (bits >>> 24), w8 (bits >>> 16), w8 (bits >>> 8), w8 bits]

/-- Big-endian 32-bit words from a byte list. -/
def toWords : List Nat → List Nat
  | a :: b :: c :: d :: rest =>
    ((a <<< 24) ||| (b <<< 16) ||| (c <<< 8) ||| d) :: toWords rest
  | _ => []

/-- Split a byte list into 64-byte blocks (structural recursion on a fuel
argument so that the kernel can evaluate it). -/
def toBlocksAux : Nat → List Nat → List (List Nat)
  | 0, _ => []
  | _, [] => []
  | fuel + 1, x :: xs => (x :: xs).take 64 :: toBlocksAux fuel (xs.drop 63)

/-- Split a byte list into 64-byte blocks. -/
def toBlocks (l : List Nat) : List (List Nat) := toBlocksAux l.length l

/-- Extend the 16-word message schedule by `i` further words. -/
def sha1Expand (ws : List Nat) : Nat → List Nat
  | 0 => ws
  | k + 1 =>
    let prev := sha1Expand ws k
    let n := prev.length
    prev ++ [rotl 1 ((prev.getD (n - 3) 0) ^^^ (prev.getD (n - 8) 0) ^^^
      (prev.getD (n - 14) 0) ^^^ (prev.getD (n - 16) 0))]

/-- The SHA-1 round function. -/
def sha1F (t b c d : Nat) : Nat :=
  if t < 20 then (b &&& c) ||| ((b ^^^ 0xFFFFFFFF) &&& d)
  else if t < 40 then b ^^^ c ^^^ d
  else if t < 60 then (b &&& c) ||| (b &&& d) ||| (c &&& d)
  else b ^^^ c ^^^ d

/-- The SHA-1 round constants. -/
def sha1K (t : Nat) : Nat :=
  if t < 20 then 0x5A827999
  else if t < 40 then 0x6ED9EBA1
  else if t < 60 then 0x8F1BBCDC
  else 0xCA62C1D6

/-- One SHA-1 round on the five-word state. -/
def sha1Round (ws : List Nat) (st : Nat × Nat × Nat × Nat × Nat) (t : Nat) :
    Nat × Nat × Nat × Nat × Nat :=
  let (a, b, c, d, e) := st
  (w32 (rotl 5 a + sha1F t b c d + e + sha1K t + ws.getD t 0),
   a, rotl 30 b, c, d)

/-- Process one 64-byte block. -/
def sha1Block (h : Nat × Nat × Nat × Nat × Nat) (block : List Nat) :
    Nat × Nat × Nat × Nat × Nat :=
  let ws := sha1Expand (toWords block) 64
  let (a, b, c, d, e) := (List.range 80).foldl (sha1Round ws) h
  let (h0, h1, h2, h3, h4) := h
  (w32 (h0 + a), w32 (h1 + b), w32 (h2 + c), w32 (h3 + d), w32 (h4 + e))

/-- Big-endian bytes of a 32-bit word. -/
def wordBytes (n : Nat) : List Nat :=
  [w8 (n >>> 24), w8 (n >>> 16), w8 (n >>> 8), w8 n]

/-- SHA-1 of a byte list (20-byte digest). -/
def sha1 (msg : List Nat) : List Nat :=
  let (h0, h1, h2, h3, h4) :=
    (toBlocks (sha1Pad msg)).foldl sha1Block
      (0x67452301, 0xEFCDAB89, 0x98BADCFE, 0x10325476, 0xC3D2E1F0)
  wordBytes h0 ++ wordBytes h1 ++ wordBytes h2 ++ wordBytes h3 ++ wordBytes h4

/-- The bytes of `NAMESPACE_UUID = uuid.UUID('6ba7b810-9dad-11d1-80b4-00c04fd430c8')`
(the hard-coded namespace constant of `standardization.py`). -/
def NAMESPACE_UUID : List Nat :=
  [0x6b, 0xa7, 0xb8, 0x10, 0x9d, 0xad, 0x11, 0xd1,
   0x80, 0xb4, 0x00, 0xc0, 0x4f, 0xd4, 0x30, 0xc8]

/-- Model of `uuid.uuid5(ns, name)` as bytes: the first 16 bytes of
`SHA-1(ns.bytes + name.encode('utf-8'))` with the version nibble forced to 5
and the variant bits forced to RFC 4122. -/
def uuid5Bytes (ns : List Nat) (name : String) : List Nat :=
  let digest := (sha1 (ns ++ utf8Encode name)).take 16
  (digest.set 6 ((digest.getD 6 0 &&& 0x0F) ||| 0x50)).set 8
    ((digest.getD 8 0 &&& 0x3F) ||| 0x80)

/-- Lower-case hex digit. -/
def hexDigitChar (n : Nat) : Char :=
  if n < 10 then Char.ofNat (48 + n) else Char.ofNat (87 + n)

/-- Two hex digits of a byte. -/
def byteHex (b : Nat) : List Char := [hexDigitChar (b / 16), hexDigitChar (b % 16)]

/-- Model of `str(uuid)`: the 8-4-4-4-12 hyphenated lower-case hex form. -/
def uuidToString (bytes : List Nat) : String :=
  let hx := bytes.map byteHex
  ⟨(hx.take 4).flatten ++ ['-'] ++ ((hx.drop 4).take 2).flatten ++ ['-'] ++
   ((hx.drop 6).take 2).flatten ++ ['-'] ++ ((hx.drop 8).take 2).flatten ++ ['-'] ++
   (hx.drop 10).flatten⟩

/-- Model of the source function, `str(uuid.uuid5(NAMESPACE_UUID, name))`. -/
def _generate_stable_uuid (name : String) : String :=
  uuidToString (uuid5Bytes NAMESPACE_UUID name)

set_option maxRecDepth 20000 in
/-- Sanity check of the SHA-1 / UUIDv5 embedding: the value the Python
standard library produces for `uuid5(NAMESPACE_UUID, 'Potato')`. -/
theorem uuid5_potato_value :
    _generate_stable_uuid "Potato" = "8e63ce33-3cbc-5e33-932b-485f2551426d" := by
  decide

/-- The module-level alias authoring structure `PARENT_CHILD_MAPPING`
(a Python dict in insertion order). -/
def PARENT_CHILD_MAPPING : List (String × List String) :=
  [("Red Onion A", ["Red Onion A", "Red Onion Grade A", "Red Onion Grade A Restaurant q", "Red Onion Grade A Restaurant quality", "Red Onion"]),
   ("Red Onion B", ["Red Onion B", "Red Onion Grade B"]),
   ("Red Onion C", ["Red Onion C", "Red Onion Grade C", "Red Onion D"]),
   ("Red Onion Elfora", ["Red Onion Elfora", "Redonion Elfora"]),
   ("Carrot", ["Carrot", "Carrot B"]),
   ("Tomato A", ["Tomato A", "Tomatoes Grade A", "Tomato", "Tomato Restaurant Quality ", "Tomatoes A", "Tomato Grade A"]),
   ("Tomato B", ["Tomato B", "Tomatoes B", "Tomatoes Grade B"]),
   ("Potato", ["Potato", "Potatoes", "Potatoes Chips", "Potato for Chips", "Potatoes Restaurant quality", "Potatoes Restaurant Quality", "Potato Chips"]),
   ("Chili Green", ["Chili Green", "Chilly Green", "Chilly Green (Starta)", "Green Chili", "Green Chilli", "Green Chili (ስታርታ)", "Chilly Green (Starter)", "Chilly Green Elfora", "Chilly Green (Elfora)"]),
   ("Beetroot", ["Beetroot", "beetroot", "Beet root"]),
   ("White Cabbage", ["White Cabbage", "White Cabbage B", "White Cabbage (Large)", "White Cabbage (Small)", "White Cabbage (medium)", "Habesha Cabbage", "whitecabbage", "White cabbage"]),
   ("Avocado", ["Avocado", "Avocado A", "Avocado OG", "Avocado Shekaraw", "Avocado B"]),
   ("Strawberry", ["Strawberry"]),
   ("Papaya", ["Papaya", "Papaya B", "Papaya Oversize"]),
   ("Cucumber", ["Cucumber"]),
   ("Zucchini", ["Zucchini", "Zucchini", "Courgetti", "Courgette"]),
   ("Garlic", ["Garlic", "Garlic B", "garlic", "Garlic (የተፈለፈለ)", "Hatched Garlic"]),
   ("Ginger", ["Ginger"]),
   ("Pineapple", ["Pineapple", "pineapple", "Pineapple B"]),
   ("Mango Apple", ["Mango Apple", "Apple Mango"]),
   ("Lemon", ["Lemon", "lemon", "Lemon", "Lomen"]),
   ("Orange", ["Orange", "Valencia Orange", "orange Valencia", "Valencia Orange", "Orange Yerer", "Yerer Orange", "Orange Yarer ", "Orange Pineapple "]),
   ("Apple", ["Apple", "Appel"]),
   ("Corn", ["Corn"]),
   ("Mango", ["Mango", "Ye Habeshaa Mango", "Habesha Mango", "Ye Habesha Mango"]),
   ("Green Beans", ["Fossolia", "Green Beans", "Grean Beans", "Green bean"]),
   ("Salad", ["Salad"]),
   ("Broccoli", ["Broccoli", "Broccolis"]),
   ("Sweet Potato", ["Sweet Potatoes", "sweet potato", "Sweet Potato", "sweet potato"]),
   ("Banana", ["Banana", "Banana/ Raw "]),
   ("Eggplant", ["Egg plant", "eggplant", "Egg plant"]),
   ("AL-Hinan Flour", ["AL-Hinan Flour", "AL-Hinan flour"]),
   ("Aluu Sunflower Oil", ["Aluu Pure Sunflower Oil", "Aluu Sunflower Oil"]),
   ("CK Powdered Soap", ["CK Powdered Soap", "CK Powdered Soap ", "Ck Powder Soap", "Ck powdered soap"]),
   ("Cross-body Bag", ["Cross-body Bag", "Crossbody Bag"]),
   ("Dachi Ketchup", ["Dachi Ketchup", "Dachi Ketchup ", "Dachi Kethup"]),
   ("Dawedo Pepper", ["Dawed pepper ", "Dawedo Pepper "]),
   ("Difo Package", ["Difo Package", "Difo package ", "ድፎ ጥቅል", "ዳቦ ጥቅል"]),
   ("Girum Cinnamon Tea Bag", ["Girum Cinamon Tea Bag", "Girum Cinnamon Tea Bag "]),
   ("Happy Toilet Tissue", ["Happy Toilet Tissue", "Happy Toilet Paper"]),
   ("Iceberg Salad", ["Iceberg", "Iceberg Salad", "iceberg salad"]),
   ("Indomie Vegetable Noodles", ["Indomie Vegetable Noodles ", "Indomie Vegie Noodles "]),
   ("MIA Pasta", ["MIA Pasta", "Mia Pasta"]),
   ("Mawi Coffee", ["Mawi Coffee ", "Mawi coffee "]),
   ("Moon Vanilla Biscuit", ["Moon Vanilla Biscuit ", "Moon vanilla biscut "]),
   ("Omar Sunflower Oil", ["Omaar sunflower oil", "Omar Sunflower Oil"]),
   ("Qulet Package", ["Qulet Package", "Qulet package ", "ቁሌት ጥቅል "]),
   ("Roll Detergent powder", ["Rol Bio Laundry powder ", "Roll Detergent powder"]),
   ("Tulip Toilet Paper", ["Tulip Toilet Paper", "Tulip soft "]),
   ("YALI Bleach 5lit", ["YALI Bleach 5lit ", "Yali Bleach 5L"]),
   ("YALI Multi Purpose 2lit", ["YALI Multi Purpose 2lit ", "Yali Multi purpose 2lit"]),
   ("YALI Multi Purpose 5lit", ["YALI Multi Purpose 5lit", "Yali Multi purpose 5lit"]),
   ("Yeah laundry bar soap", ["YEAH Bar Soap", "Yeah laundry bar soap"]),
   ("Zagol Yoghurt", ["Zagol Yoghurt", "Zagol yoghurt"]),
   ("Victory Water", ["Victory Natural Water/Pack", "Victory Water ", "victory purified natural water"]),
   ("Red Onion (ሃበሻ)", ["Red Onion (ሃበሻ)", "Red onion ( ሃበሻ ) "]),
   ("ABC Diaper", ["ABC Diaper", "ABC Daiper"]),
   ("Bonga Honey", ["Bonga Honey", "Bonga Mar"]),
   ("Cheese", ["Cheese", "አይብ", "Ethiopian Cheese"]),
   ("Cheese Package", ["Cheese Package", "አይብ ጥቅል"]),
   ("Goat Meat", ["Goat Meat", "የፍየል ስጋ", "Special Goat Package", "Regular Goat Package", "ሙክት የፍየል ስጋ"]),
   ("Lamb", ["Lamb", "Lamp", "የበግ ስጋ", "ጠቦት የበግ ስጋ", "Regular Mutton Package", "Sheep package"]),
   ("Bravo Table Tissue", ["Bravo Table Tissue", "Bravo Toilet Paper"]),
   ("Habesha Mitin Shiro", ["Habesha Mitin Shiro", "Habsha Mitin Shiro"]),
   ("Chicken Package", ["Chicken Groceries", "Regular Chicken Package", "Special Chicken Package", "BGS Foreign Chicken", "12 Piece Chicken", "Chicken Package", "Habesha Chicken", "Habesha Chicken Package"]),
   ("Tesfaye Peanut Butter", ["Tesfaye Peanut Butter", "Tesfaye Peanut"])]

/-! ### Python dicts (insertion-ordered association lists) -/

/-- Model of `d[k] = v` on an insertion-ordered dict: overwriting keeps the key's
original position, a new key is appended. -/
def dictInsert : List (String × String) → String → String →
    List (String × String)
  | [], k, v => [(k, v)]
  | p :: ps, k, v => if p.1 == k then (k, v) :: ps else p :: dictInsert ps k v

/-- Model of `d.get(k)` on an association list. -/
def dictGet? (m : List (String × String)) (k : String) : Option String :=
  (m.find? (fun p => p.1 == k)).map (·.2)

/-- Model of the source function: for every `(parent, children)`
entry in authoring order, write `child_map[cleaned_child] = parent` for every
child in list order. -/
def _create_child_to_parent_map (mapping : List (String × List String)) :
    List (String × String) :=
  mapping.foldl
    (fun child_map pc =>
      pc.2.foldl (fun cm child => dictInsert cm (pyClean child) pc.1) child_map)
    []

/-- The module-level inverted lookup `CHILD_TO_PARENT_MAP`. -/
def CHILD_TO_PARENT_MAP : List (String × String) :=
  _create_child_to_parent_map PARENT_CHILD_MAPPING

/-- Adjacent characters are not both whitespace (the shape invariant of a
`re.sub(r'\s+', ' ', ·)` result). -/
def noTwoWs (a b : Char) : Prop :=
  ¬(pyIsSpace a = true ∧ pyIsSpace b = true)

/-! ### The record pipeline of `create_parent_child_master_table` -/

/-- One input row `{raw_product_id, raw_product_name, created_at}`.  Ids are
modelled as the strings the pipeline's `astype(str)` produces; `none` in
`raw_product_name` is a null (`NaN`) cell. -/
structure RawRecord where
  raw_product_id : String
  raw_product_name : Option String
  created_at : Option String
deriving DecidableEq, Repr

/-- One output row of the master table.  `created_at` holds the parsed
timestamp (`none` = `NaT`/`None`). -/
structure MasterRow where
  parent_product_id : String
  parent_product_name : String
  child_product_ids : List String
  child_product_names : List String
  all_possible_child_names : List String
  created_at : Option Nat
deriving DecidableEq, Repr

/-- The raw name of a record, defaulting the null cell (only used on records
that survived `dropna`). -/
def rawName (r : RawRecord) : String := r.raw_product_name.getD ""

/-- The two filter steps: `dropna(subset=['raw_product_name'])` followed by
`df[df['raw_product_name'].astype(str).str.strip() != '0']`. -/
def filteredRecords (records : List RawRecord) : List RawRecord :=
  (records.filter (fun r => r.raw_product_name.isSome)).filter
    (fun r => pyStrip (rawName r) != "0")

/-- The `cleaned_name` column. -/
def cleanedName (r : RawRecord) : String := pyClean (rawName r)

/-- Python's lexicographic-by-code-point comparison of strings, as a
computable Boolean on character lists (`s <= t` in Python). -/
def pyListLe : List Char → List Char → Bool
  | [], _ => true
  | _ :: _, [] => false
  | a :: as, b :: bs =>
    if a.toNat < b.toNat then true
    else if b.toNat < a.toNat then false
    else pyListLe as bs

/-- Python's `s <= t` on strings. -/
def pyStrLe (s t : String) : Bool := pyListLe s.data t.data

/-- Python's `s <= t` as a decidable relation (used by the model of
`sorted`). -/
def strLe (a b : String) : Prop := pyStrLe a b = true

instance : DecidableRel strLe := fun a b =>
  inferInstanceAs (Decidable (pyStrLe a b = true))

/-- Model of `sorted(list(column.unique()))`.  (`List.dedup` keeps last occurrences
where pandas `unique` keeps first ones; after sorting the results agree.) -/
def sortedUnique (l : List String) : List String :=
  List.insertionSort strLe l.dedup

/-- The `parent_name` column: the alias-table lookup
(`df['cleaned_name'].map(CHILD_TO_PARENT_MAP)`), with nulls filled from
`df.groupby(cleaned_name)['raw_product_name'].transform('first')`. -/
def parentNameFor (childMap : List (String × String)) (recs : List RawRecord)
    (r : RawRecord) : String :=
  match dictGet? childMap (cleanedName r) with
  | some p => p
  | none =>
    match recs.find? (fun r0 => cleanedName r0 == cleanedName r) with
    | some r0 => rawName r0
    | none => rawName r

/-- The distinct group keys of `df.groupby('parent_name')`, in the ascending
order pandas produces (`groupby` sorts keys; the trailing
`sort_values('parent_name')` re-establishes the same order).  `List.dedup`
keeps last occurrences where pandas `unique` keeps first ones, but the
subsequent sort produces the identical list either way. -/
def parentKeys (childMap : List (String × String)) (recs : List RawRecord) :
    List String :=
  sortedUnique (recs.map (parentNameFor childMap recs))

/-- The records aggregated under one parent name. -/
def groupMembers (childMap : List (String × String)) (recs : List RawRecord)
    (k : String) : List RawRecord :=
  recs.filter (fun r => parentNameFor childMap recs r == k)

/-- The aggregation rule for `created_at`:
`dates.dropna().min() if not dates.dropna().empty else None`, where a date
cell is `r.created_at` run through the coercing parser. -/
def groupCreatedAt (parse : String → Option Nat) (members : List RawRecord) :
    Option Nat :=
  let ds := members.filterMap (fun r => r.created_at.bind parse)
  if ds.isEmpty then none else ds.min?

/-- Model of `mapping.get(k)` on the authoring structure. -/
def mappingGet? (mapping : List (String × List String)) (k : String) :
    Option (List String) :=
  (mapping.find? (fun p => p.1 == k)).map (·.2)

/-- Assemble the output row for one parent-name group. -/
def mkRow (parse : String → Option Nat) (mapping : List (String × List String))
    (childMap : List (String × String)) (recs : List RawRecord) (k : String) :
    MasterRow :=
  let members := groupMembers childMap recs k
  { parent_product_id := _generate_stable_uuid k
    parent_product_name := k
    child_product_ids := sortedUnique (members.map (·.raw_product_id))
    child_product_names := sortedUnique (members.map rawName)
    all_possible_child_names :=
      match mappingGet? mapping k with
      | some aliases => aliases
      | none => [k]
    created_at := groupCreatedAt parse members }

/-- Model of `create_parent_child_master_table` over record lists.  `parse`
stands for `pd.to_datetime(·, errors='coerce', utc=True)` on one cell
(`none` = `NaT`); `mapping` stands for the module constant
`PARENT_CHILD_MAPPING` from which `CHILD_TO_PARENT_MAP` is derived. -/
def create_parent_child_master_table (parse : String → Option Nat)
    (mapping : List (String × List String)) (records : List RawRecord) :
    List MasterRow :=
  if records.isEmpty then []
  else
    let childMap := _create_child_to_parent_map mapping
    let recs := filteredRecords records
    (parentKeys childMap recs).map (mkRow parse mapping childMap recs)

/-! ### Helper lemmas -/

theorem mem_filteredRecords {records : List RawRecord} {r : RawRecord} :
    r ∈ filteredRecords records ↔
      r ∈ records ∧ r.raw_product_name.isSome ∧ pyStrip (rawName r) ≠ "0" := by
  simp only [filteredRecords, List.mem_filter, bne_iff_ne, ne_eq, and_assoc]

theorem pyListLe_iff : ∀ as bs : List Char, pyListLe as bs = true ↔ ¬bs < as
  | [], [] => by
    simp only [pyListLe, true_iff]
    intro h; cases h
  | [], _ :: _ => by
    simp only [pyListLe, true_iff]
    intro h; cases h
  | a :: as, [] => by
    simp only [pyListLe, Bool.false_eq_true, false_iff, not_not]
    exact List.Lex.nil
  | a :: as, b :: bs => by
    rcases Nat.lt_trichotomy a.toNat b.toNat with hab | hab | hab
    · simp only [pyListLe, hab, if_pos, true_iff]
      intro h
      cases h with
      | cons _ => exact Nat.lt_irrefl _ hab
      | rel h' => exact Nat.lt_asymm hab h'
    · have hab' : a = b := Char.ext (UInt32.ext hab)
      subst hab'
      simp only [pyListLe, Nat.lt_irrefl, if_neg, if_false]
      rw [pyListLe_iff as bs]
      constructor
      · intro h hlt
        cases hlt with
        | cons h3 => exact h h3
        | rel h' => exact Nat.lt_irrefl _ h'
      · intro h hlt
        exact h (List.Lex.cons hlt)
    · simp only [pyListLe, Nat.lt_asymm hab, if_neg, if_false, hab, if_pos,
        Bool.false_eq_true, false_iff, not_not]
      exact List.Lex.rel hab

theorem pyStrLe_iff (s t : String) : strLe s t ↔ s ≤ t := by
  rw [String.le_iff_toList_le, ← not_lt]
  exact pyListLe_iff s.data t.data

instance : IsTotal String strLe :=
  ⟨fun a b => by rw [pyStrLe_iff, pyStrLe_iff]; exact le_total a b⟩

instance : IsTrans String strLe :=
  ⟨fun a b c hab hbc => by
    rw [pyStrLe_iff] at hab hbc ⊢; exact le_trans hab hbc⟩

theorem mem_sortedUnique {l : List String} {x : String} :
    x ∈ sortedUnique l ↔ x ∈ l := by
  simp [sortedUnique, List.mem_insertionSort, List.mem_dedup]

theorem mem_parentKeys {childMap : List (String × String)}
    {recs : List RawRecord} {k : String} :
    k ∈ parentKeys childMap recs ↔
      ∃ r ∈ recs, parentNameFor childMap recs r = k := by
  simp [parentKeys, mem_sortedUnique, List.mem_map]

theorem mem_groupMembers {childMap : List (String × String)}
    {recs : List RawRecord} {k : String} {r : RawRecord} :
    r ∈ groupMembers childMap recs k ↔
      r ∈ recs ∧ parentNameFor childMap recs r = k := by
  simp [groupMembers, List.mem_filter]

theorem master_table_eq (parse : String → Option Nat)
    (mapping : List (String × List String)) (records : List RawRecord)
    (h : records ≠ []) :
    create_parent_child_master_table parse mapping records =
      (parentKeys (_create_child_to_parent_map mapping)
        (filteredRecords records)).map
        (mkRow parse mapping (_create_child_to_parent_map mapping)
          (filteredRecords records)) := by
  simp [create_parent_child_master_table, h]

theorem mem_master_table {parse : String → Option Nat}
    {mapping : List (String × List String)} {records : List RawRecord}
    {row : MasterRow}
    (h : row ∈ create_parent_child_master_table parse mapping records) :
    ∃ k ∈ parentKeys (_create_child_to_parent_map mapping)
        (filteredRecords records),
      row = mkRow parse mapping (_create_child_to_parent_map mapping)
        (filteredRecords records) k := by
  rcases records with _ | ⟨r0, rs⟩
  · simp [create_parent_child_master_table] at h
  · rw [master_table_eq _ _ _ (by simp)] at h
    obtain ⟨k, hk, hrow⟩ := List.mem_map.mp h
    exact ⟨k, hk, hrow.symm⟩

/-! ### The claims -/

/-- C8: on empty input (no records from any source) the engine returns an
empty master table rather than raising; the empty result is a successful
(total) outcome of the embedded function. -/
theorem empty_input_yields_empty_table (parse : String → Option Nat)
    (mapping : List (String × List String)) :
    create_parent_child_master_table parse mapping [] = [] := rfl

/-- C1: the identifier generator is exactly the string form of the
version-5 (SHA-1 name-based) UUID of the parent name under the fixed
hard-coded namespace `6ba7b810-9dad-11d1-80b4-00c04fd430c8`, and hence any
two calls with equal names return the identical value. -/
theorem generate_id_is_deterministic_uuid5 (s t : String) (h : t = s) :
    _generate_stable_uuid t = _generate_stable_uuid s ∧
      _generate_stable_uuid s = uuidToString (uuid5Bytes NAMESPACE_UUID s) :=
  ⟨h ▸ rfl, rfl⟩

/-- Witness for C1 at the spec's example name. -/
theorem generate_id_is_deterministic_uuid5_witness :
    _generate_stable_uuid "Potato" = _generate_stable_uuid "Potato" ∧
      _generate_stable_uuid "Potato" =
        uuidToString (uuid5Bytes NAMESPACE_UUID "Potato") :=
  generate_id_is_deterministic_uuid5 "Potato" "Potato" rfl

set_option maxRecDepth 20000 in
/-- Counterexample to C2 as stated: a record whose `raw_name` is the empty
string survives both filters (`dropna` only drops nulls, and `'' .strip()`
is not `'0'`), is grouped under the empty parent name, and its id and name
appear in the emitted row — so a row with an empty parent name is emitted. -/
theorem filtering_drops_empty_name_cex :
    (create_parent_child_master_table (fun _ => none) []
        [⟨"1", some "", none⟩]).map
      (fun row => (row.parent_product_name, row.child_product_ids,
        row.child_product_names)) = [("", ["1"], [""])] := by
  decide

theorem dictGet?_dictInsert_self (m : List (String × String)) (k v : String) :
    dictGet? (dictInsert m k v) k = some v := by
  induction m with
  | nil => simp [dictInsert, dictGet?]
  | cons p ps ih =>
    by_cases h : p.1 = k
    · simp [dictInsert, dictGet?, h]
    · simp only [dictInsert, if_neg (by simpa using h)]
      simpa [dictGet?, List.find?_cons, beq_eq_false_iff_ne.mpr h] using ih

theorem dictGet?_dictInsert_ne (m : List (String × String)) (k v k' : String)
    (h : k' ≠ k) : dictGet? (dictInsert m k v) k' = dictGet? m k' := by
  have hk : (k == k') = false := beq_eq_false_iff_ne.mpr (Ne.symm h)
  induction m with
  | nil => simp [dictInsert, dictGet?, List.find?_cons, hk]
  | cons p ps ih =>
    by_cases hp : p.1 = k
    · have hfp : (p.1 == k') = false := by
        rw [hp]; exact hk
      simp [dictInsert, hp, dictGet?, List.find?_cons, hk, hfp]
    · have hfp : (p.1 == k) = false := beq_eq_false_iff_ne.mpr hp
      simp only [dictInsert, hfp, Bool.false_eq_true, if_false]
      by_cases hp' : p.1 = k'
      · simp [dictGet?, List.find?_cons, hp']
      · have hfp' : (p.1 == k') = false := beq_eq_false_iff_ne.mpr hp'
        simpa [dictGet?, List.find?_cons, hfp'] using ih

theorem dictGet?_mem {m : List (String × String)} {k v : String}
    (h : dictGet? m k = some v) : (k, v) ∈ m := by
  unfold dictGet? at h
  cases hf : m.find? (fun p => p.1 == k) with
  | none => rw [hf] at h; simp at h
  | some q =>
    rw [hf] at h
    simp only [Option.map_some'] at h
    rw [Option.some_inj] at h
    have hq := List.mem_of_find?_eq_some hf
    have hk := List.find?_some hf
    rw [beq_iff_eq] at hk
    rwa [← h, ← hk, Prod.mk.eta]

theorem inner_foldl_get_of_not_mem (p k : String) (cs : List String)
    (h : ∀ c ∈ cs, pyClean c ≠ k) (cm : List (String × String)) :
    dictGet? (cs.foldl (fun cm c => dictInsert cm (pyClean c) p) cm) k =
      dictGet? cm k := by
  induction cs generalizing cm with
  | nil => rfl
  | cons c cs ih =>
    simp only [List.foldl_cons]
    rw [ih (fun c' hc' => h c' (List.mem_cons_of_mem _ hc')),
      dictGet?_dictInsert_ne]
    exact fun he => h c (List.mem_cons_self c cs) he.symm

theorem inner_foldl_get_of_mem (p k : String) (cs : List String)
    (h : ∃ c ∈ cs, pyClean c = k) (cm : List (String × String)) :
    dictGet? (cs.foldl (fun cm c => dictInsert cm (pyClean c) p) cm) k =
      some p := by
  induction cs generalizing cm with
  | nil => simp at h
  | cons c cs ih =>
    simp only [List.foldl_cons]
    by_cases hcs : ∃ c' ∈ cs, pyClean c' = k
    · exact ih hcs _
    · have hc : pyClean c = k := by
        rcases h with ⟨c', hc', he⟩
        rcases List.mem_cons.mp hc' with h1 | h2
        · exact h1 ▸ he
        · exact absurd ⟨c', h2, he⟩ hcs
      rw [inner_foldl_get_of_not_mem p k cs
        (fun c' hc' he => hcs ⟨c', hc', he⟩) _, hc]
      exact dictGet?_dictInsert_self cm k p

theorem outer_foldl_get_of_not_mem (k : String)
    (m : List (String × List String))
    (h : ∀ qc ∈ m, ∀ c ∈ qc.2, pyClean c ≠ k) (cm : List (String × String)) :
    dictGet? (m.foldl (fun cm pc =>
        pc.2.foldl (fun cm c => dictInsert cm (pyClean c) pc.1) cm) cm) k =
      dictGet? cm k := by
  induction m generalizing cm with
  | nil => rfl
  | cons pc m ih =>
    simp only [List.foldl_cons]
    rw [ih (fun qc hqc => h qc (List.mem_cons_of_mem _ hqc)),
      inner_foldl_get_of_not_mem _ _ _ (h pc (List.mem_cons_self pc m))]

/-- C7: if the same alias string (after cleaning) occurs under two parents,
building the inverted lookup is total (never fails), and the alias resolves
to the parent of the entry written last in the mapping's iteration order:
for a decomposition `m1 ++ (p, cs) :: m2` in which the entry `(p, cs)`
declares the alias and no later entry does, the lookup yields `p`,
regardless of how many earlier entries in `m1` declared the same alias. -/
theorem duplicate_alias_resolves_to_last_writer
    (m1 m2 : List (String × List String)) (p : String) (cs : List String)
    (k : String) (hk : ∃ c ∈ cs, pyClean c = k)
    (h2 : ∀ qc ∈ m2, ∀ c ∈ qc.2, pyClean c ≠ k) :
    dictGet? (_create_child_to_parent_map (m1 ++ (p, cs) :: m2)) k = some p := by
  unfold _create_child_to_parent_map
  rw [List.foldl_append, List.foldl_cons, outer_foldl_get_of_not_mem k m2 h2]
  exact inner_foldl_get_of_mem p k cs hk _

/-- Witness for C7: `x` declared under both `P1` and `P2` resolves to the
later entry `P2`. -/
theorem duplicate_alias_resolves_to_last_writer_witness :
    dictGet? (_create_child_to_parent_map [("P1", ["x"]), ("P2", ["x"])])
      "x" = some "P2" :=
  duplicate_alias_resolves_to_last_writer [("P1", ["x"])] [] "P2" ["x"] "x"
    ⟨"x", by decide, by decide⟩ (by simp)

/-- C3: a record whose cleaned raw name is a key of the inverted alias table
resolves to that key's declared parent, never to the grouping fallback —
whatever other records (coincidentally sharing the same cleaned key or not)
are in the run. -/
theorem alias_lookup_overrides_fallback
    (mapping : List (String × List String)) (records : List RawRecord)
    (r : RawRecord) (p : String) (_hr : r ∈ filteredRecords records)
    (hp : dictGet? (_create_child_to_parent_map mapping) (cleanedName r) =
      some p) :
    parentNameFor (_create_child_to_parent_map mapping)
      (filteredRecords records) r = p := by
  simp [parentNameFor, hp]

/-- Witness for C3. -/
theorem alias_lookup_overrides_fallback_witness :
    parentNameFor (_create_child_to_parent_map [("P", ["x"])])
      (filteredRecords [⟨"1", some "X", none⟩]) ⟨"1", some "X", none⟩ = "P" :=
  alias_lookup_overrides_fallback [("P", ["x"])] [⟨"1", some "X", none⟩]
    ⟨"1", some "X", none⟩ "P" (by decide) (by decide)

/-- C4: for a cleaned key absent from the alias table, every surviving
record with that key is assigned the raw name of the first surviving record
(in input order) with that key as its parent name, so all of them land in
the single group keyed by that first raw name. -/
theorem unmapped_key_groups_under_first_raw_name
    (mapping : List (String × List String)) (records : List RawRecord)
    (k : String) (r0 : RawRecord)
    (hfind : (filteredRecords records).find?
      (fun r => cleanedName r == k) = some r0)
    (hnone : dictGet? (_create_child_to_parent_map mapping) k = none) :
    ∀ r ∈ filteredRecords records, cleanedName r = k →
      parentNameFor (_create_child_to_parent_map mapping)
        (filteredRecords records) r = rawName r0 ∧
      r ∈ groupMembers (_create_child_to_parent_map mapping)
        (filteredRecords records) (rawName r0) := by
  intro r hr hck
  have hpn : parentNameFor (_create_child_to_parent_map mapping)
      (filteredRecords records) r = rawName r0 := by
    simp only [parentNameFor, hck, hnone, hfind]
  exact ⟨hpn, mem_groupMembers.mpr ⟨hr, hpn⟩⟩

/-- Witness for C4: two unmapped variants of one cleaned key collapse onto
the raw name of the first one. -/
theorem unmapped_key_groups_under_first_raw_name_witness :
    parentNameFor (_create_child_to_parent_map [])
      (filteredRecords [⟨"1", some "Zug  Soap", none⟩,
        ⟨"2", some " zug soap ", none⟩]) ⟨"2", some " zug soap ", none⟩ =
      rawName ⟨"1", some "Zug  Soap", none⟩ ∧
    ⟨"2", some " zug soap ", none⟩ ∈ groupMembers
      (_create_child_to_parent_map [])
      (filteredRecords [⟨"1", some "Zug  Soap", none⟩,
        ⟨"2", some " zug soap ", none⟩])
      (rawName ⟨"1", some "Zug  Soap", none⟩) :=
  unmapped_key_groups_under_first_raw_name [] _ "zug soap"
    ⟨"1", some "Zug  Soap", none⟩ (by decide) (by decide)
    ⟨"2", some " zug soap ", none⟩ (by decide) (by decide)

theorem dictInsert_forall {P : String × String → Prop}
    {m : List (String × String)} {k v : String}
    (hm : ∀ kv ∈ m, P kv) (hkv : P (k, v)) :
    ∀ kv ∈ dictInsert m k v, P kv := by
  induction m with
  | nil =>
    intro kv h
    simp only [dictInsert, List.mem_singleton] at h
    exact h ▸ hkv
  | cons p ps ih =>
    intro kv h
    by_cases hp : (p.1 == k) = true
    · simp only [dictInsert, hp, if_true] at h
      rcases List.mem_cons.mp h with h1 | h2
      · exact h1 ▸ hkv
      · exact hm kv (List.mem_cons_of_mem _ h2)
    · simp only [dictInsert, hp, if_false, Bool.false_eq_true] at h
      rcases List.mem_cons.mp h with h1 | h2
      · exact hm kv (h1 ▸ List.mem_cons_self p ps)
      · exact ih (fun kv hkv' => hm kv (List.mem_cons_of_mem _ hkv')) kv h2

theorem inner_foldl_forall {P : String × String → Prop} (p : String)
    (cs : List String) :
    ∀ cm, (∀ kv ∈ cm, P kv) → (∀ c ∈ cs, P (pyClean c, p)) →
      ∀ kv ∈ cs.foldl (fun cm c => dictInsert cm (pyClean c) p) cm, P kv := by
  induction cs with
  | nil => intro cm hcm _; exact hcm
  | cons c cs ih =>
    intro cm hcm hcs
    simp only [List.foldl_cons]
    exact ih _ (dictInsert_forall hcm (hcs c (List.mem_cons_self c cs)))
      (fun c' hc' => hcs c' (List.mem_cons_of_mem _ hc'))

theorem child_to_parent_map_forall {P : String × String → Prop}
    (mapping : List (String × List String))
    (h : ∀ pc ∈ mapping, ∀ c ∈ pc.2, P (pyClean c, pc.1)) :
    ∀ kv ∈ _create_child_to_parent_map mapping, P kv := by
  unfold _create_child_to_parent_map
  suffices hgen : ∀ (m : List (String × List String)) (cm),
      (∀ kv ∈ cm, P kv) → (∀ pc ∈ m, ∀ c ∈ pc.2, P (pyClean c, pc.1)) →
      ∀ kv ∈ m.foldl (fun cm pc =>
        pc.2.foldl (fun cm c => dictInsert cm (pyClean c) pc.1) cm) cm, P kv by
    exact hgen mapping [] (by simp) h
  intro m
  induction m with
  | nil => intro cm hcm _; exact hcm
  | cons pc m ih =>
    intro cm hcm hm
    simp only [List.foldl_cons]
    exact ih _ (inner_foldl_forall pc.1 pc.2 cm hcm
        (hm pc (List.mem_cons_self pc m)))
      (fun qc hqc => hm qc (List.mem_cons_of_mem _ hqc))

/-- C2 amended: records with a null `raw_name` and records whose `raw_name`
strips to the literal `"0"` are dropped and never contribute to any output
group — every name appearing in a `child_product_names` list is the actual
(non-null) raw name of an input record and does not strip to `"0"` — and,
as long as no declared parent name is `"0"`, no emitted row has parent name
`"0"`.  (Records whose `raw_name` is the empty string are NOT dropped, see
the counterexample.) -/
theorem filtering_drops_null_and_zero_names (parse : String → Option Nat)
    (mapping : List (String × List String)) (records : List RawRecord)
    (row : MasterRow)
    (hrow : row ∈ create_parent_child_master_table parse mapping records) :
    (∀ nm ∈ row.child_product_names,
      (∃ r ∈ records, r.raw_product_name = some nm) ∧ pyStrip nm ≠ "0") ∧
    ((∀ pc ∈ mapping, pc.1 ≠ "0") → row.parent_product_name ≠ "0") := by
  obtain ⟨k, hk, hrow'⟩ := mem_master_table hrow
  subst hrow'
  constructor
  · intro nm hnm
    simp only [mkRow] at hnm
    rw [mem_sortedUnique] at hnm
    obtain ⟨r, hr, hname⟩ := List.mem_map.mp hnm
    have hrf := (mem_groupMembers.mp hr).1
    have hmem := mem_filteredRecords.mp hrf
    obtain ⟨x, hx⟩ := Option.isSome_iff_exists.mp hmem.2.1
    have hxn : x = nm := by
      rw [← hname]; simp [rawName, hx]
    refine ⟨⟨r, hmem.1, by rw [hx, hxn]⟩, ?_⟩
    rw [← hname]
    exact hmem.2.2
  · intro hmap
    obtain ⟨r, hr, hpn⟩ := mem_parentKeys.mp hk
    simp only [mkRow]
    unfold parentNameFor at hpn
    have hraw : ∀ r' : RawRecord, r' ∈ filteredRecords records →
        rawName r' ≠ "0" := by
      intro r' hr' he
      have := (mem_filteredRecords.mp hr').2.2
      rw [he] at this
      exact this (by decide)
    cases hd : dictGet? (_create_child_to_parent_map mapping)
        (cleanedName r) with
    | some p =>
      rw [hd] at hpn
      have hval : p ≠ "0" := by
        have := child_to_parent_map_forall (P := fun kv => kv.2 ≠ "0") mapping
          (fun pc hpc c _ => hmap pc hpc) _ (dictGet?_mem hd)
        exact this
      exact hpn ▸ hval
    | none =>
      rw [hd] at hpn
      cases hf : (filteredRecords records).find?
          (fun r0 => cleanedName r0 == cleanedName r) with
      | some r0 =>
        rw [hf] at hpn
        exact hpn ▸ hraw r0 (List.mem_of_find?_eq_some hf)
      | none =>
        rw [hf] at hpn
        exact hpn ▸ hraw r hr

set_option maxRecDepth 20000 in
/-- Witness for the amended C2. -/
theorem filtering_drops_null_and_zero_names_witness :
    (∀ nm ∈ (MasterRow.mk "9759785f-95f6-554a-ba7a-c3e586ec5609" "A" ["1"]
        ["A"] ["A"] none).child_product_names,
      (∃ r ∈ ([⟨"1", some "A", none⟩] : List RawRecord),
        r.raw_product_name = some nm) ∧ pyStrip nm ≠ "0") ∧
    ((∀ pc ∈ ([] : List (String × List String)), pc.1 ≠ "0") →
      (MasterRow.mk "9759785f-95f6-554a-ba7a-c3e586ec5609" "A" ["1"] ["A"]
        ["A"] none).parent_product_name ≠ "0") :=
  filtering_drops_null_and_zero_names (fun _ => none) [] [⟨"1", some "A", none⟩]
    (MasterRow.mk "9759785f-95f6-554a-ba7a-c3e586ec5609" "A" ["1"] ["A"] ["A"]
      none) (by decide)

theorem groupCreatedAt_eq_none_iff (parse : String → Option Nat)
    (members : List RawRecord) :
    groupCreatedAt parse members = none ↔
      ∀ r ∈ members, r.created_at.bind parse = none := by
  unfold groupCreatedAt
  by_cases hds : (members.filterMap (fun r => r.created_at.bind parse)).isEmpty
  · rw [if_pos hds]
    rw [List.isEmpty_iff] at hds
    simp only [true_iff]
    exact fun r hr => (List.filterMap_eq_nil_iff.mp hds) r hr
  · rw [if_neg hds]
    rw [List.isEmpty_iff] at hds
    constructor
    · intro hmin
      exact absurd (List.min?_eq_none_iff.mp hmin) hds
    · intro hall
      exact absurd (List.filterMap_eq_nil_iff.mpr hall) hds

theorem groupCreatedAt_eq_some (parse : String → Option Nat)
    (members : List RawRecord) (t : Nat)
    (h : groupCreatedAt parse members = some t) :
    (∃ r ∈ members, r.created_at.bind parse = some t) ∧
      ∀ r ∈ members, ∀ u, r.created_at.bind parse = some u → t ≤ u := by
  unfold groupCreatedAt at h
  by_cases hds : (members.filterMap (fun r => r.created_at.bind parse)).isEmpty
  · rw [if_pos hds] at h; exact absurd h (by simp)
  · rw [if_neg hds] at h
    obtain ⟨hmem, hle⟩ := List.min?_eq_some_iff'.mp h
    obtain ⟨r, hr, hrt⟩ := List.mem_filterMap.mp hmem
    exact ⟨⟨r, hr, hrt⟩, fun r' hr' u hu =>
      hle u (List.mem_filterMap.mpr ⟨r', hr', hu⟩)⟩

/-- C6: for every emitted row, `created_at` is the minimum over the group's
records of the timestamps the coercing parser accepts; records whose
`created_at` is missing (`none`) or unparseable (parser returns `none`) are
excluded, and a group with no parseable timestamp yields `created_at =
none`. -/
theorem created_at_is_min_of_parseable (parse : String → Option Nat)
    (mapping : List (String × List String)) (records : List RawRecord)
    (row : MasterRow)
    (hrow : row ∈ create_parent_child_master_table parse mapping records) :
    (row.created_at = none ↔
      ∀ r ∈ groupMembers (_create_child_to_parent_map mapping)
        (filteredRecords records) row.parent_product_name,
        r.created_at.bind parse = none) ∧
    (∀ t, row.created_at = some t →
      (∃ r ∈ groupMembers (_create_child_to_parent_map mapping)
        (filteredRecords records) row.parent_product_name,
        r.created_at.bind parse = some t) ∧
      ∀ r ∈ groupMembers (_create_child_to_parent_map mapping)
        (filteredRecords records) row.parent_product_name,
        ∀ u, r.created_at.bind parse = some u → t ≤ u) := by
  obtain ⟨k, _, hrow'⟩ := mem_master_table hrow
  subst hrow'
  have hpn : (mkRow parse mapping (_create_child_to_parent_map mapping)
      (filteredRecords records) k).parent_product_name = k := rfl
  have hca : (mkRow parse mapping (_create_child_to_parent_map mapping)
      (filteredRecords records) k).created_at =
      groupCreatedAt parse (groupMembers (_create_child_to_parent_map mapping)
        (filteredRecords records) k) := rfl
  rw [hpn, hca]
  exact ⟨groupCreatedAt_eq_none_iff parse _,
    fun t ht => groupCreatedAt_eq_some parse _ t ht⟩

set_option maxRecDepth 20000 in
/-- Witness for C6: one parseable and one unparseable timestamp in a group;
the row carries the parseable minimum. -/
theorem created_at_is_min_of_parseable_witness :
    ((MasterRow.mk "9759785f-95f6-554a-ba7a-c3e586ec5609" "A" ["1", "2"]
        ["A"] ["A"] (some 5)).created_at = none ↔
      ∀ r ∈ groupMembers (_create_child_to_parent_map [])
        (filteredRecords [⟨"1", some "A", some "d1"⟩,
          ⟨"2", some "A", some "bad"⟩])
        (MasterRow.mk "9759785f-95f6-554a-ba7a-c3e586ec5609" "A" ["1", "2"]
          ["A"] ["A"] (some 5)).parent_product_name,
        r.created_at.bind (fun s => if s = "d1" then some 5 else none) =
          none) ∧
    (∀ t, (MasterRow.mk "9759785f-95f6-554a-ba7a-c3e586ec5609" "A" ["1", "2"]
        ["A"] ["A"] (some 5)).created_at = some t →
      (∃ r ∈ groupMembers (_create_child_to_parent_map [])
        (filteredRecords [⟨"1", some "A", some "d1"⟩,
          ⟨"2", some "A", some "bad"⟩])
        (MasterRow.mk "9759785f-95f6-554a-ba7a-c3e586ec5609" "A" ["1", "2"]
          ["A"] ["A"] (some 5)).parent_product_name,
        r.created_at.bind (fun s => if s = "d1" then some 5 else none) =
          some t) ∧
      ∀ r ∈ groupMembers (_create_child_to_parent_map [])
        (filteredRecords [⟨"1", some "A", some "d1"⟩,
          ⟨"2", some "A", some "bad"⟩])
        (MasterRow.mk "9759785f-95f6-554a-ba7a-c3e586ec5609" "A" ["1", "2"]
          ["A"] ["A"] (some 5)).parent_product_name,
        ∀ u, r.created_at.bind (fun s => if s = "d1" then some 5 else none) =
          some u → t ≤ u) :=
  created_at_is_min_of_parseable (fun s => if s = "d1" then some 5 else none)
    [] [⟨"1", some "A", some "d1"⟩, ⟨"2", some "A", some "bad"⟩]
    (MasterRow.mk "9759785f-95f6-554a-ba7a-c3e586ec5609" "A" ["1", "2"] ["A"]
      ["A"] (some 5)) (by decide)

/-- Counterexample to C5 as stated: the same source id `"1"` carried by two
records whose names resolve to different parents appears in the
`child_product_ids` lists of two distinct rows, so the id sets of the rows
overlap. -/
theorem partition_property_cex :
    (create_parent_child_master_table (fun _ => none) []
        [⟨"1", some "A", none⟩, ⟨"1", some "B", none⟩]).map
      (fun row => (row.parent_product_name, row.child_product_ids)) =
      [("A", ["1"]), ("B", ["1"])] := by
  decide

/-- C5 amended: the union over all rows of `child_product_ids` always equals
the set of ids of the records that survived filtering (no omission, nothing
extra), and — provided the surviving records carry pairwise distinct ids —
no id occurs in the lists of two distinct rows. -/
theorem partition_property_amended (parse : String → Option Nat)
    (mapping : List (String × List String)) (records : List RawRecord) :
    (∀ idv, (∃ row ∈ create_parent_child_master_table parse mapping records,
        idv ∈ row.child_product_ids) ↔
      ∃ r ∈ filteredRecords records, r.raw_product_id = idv) ∧
    (((filteredRecords records).map (·.raw_product_id)).Nodup →
      (create_parent_child_master_table parse mapping records).Pairwise
        (fun a b => ∀ v, v ∈ a.child_product_ids → v ∉ b.child_product_ids)) := by
  constructor
  · intro idv
    constructor
    · rintro ⟨row, hrow, hid⟩
      obtain ⟨k, _, hrow'⟩ := mem_master_table hrow
      subst hrow'
      have hid' : idv ∈ (groupMembers (_create_child_to_parent_map mapping)
          (filteredRecords records) k).map (·.raw_product_id) := by
        simpa [mkRow, mem_sortedUnique] using hid
      obtain ⟨r, hr, hrid⟩ := List.mem_map.mp hid'
      exact ⟨r, (mem_groupMembers.mp hr).1, hrid⟩
    · rintro ⟨r, hr, hrid⟩
      have hne : records ≠ [] := by
        intro h
        subst h
        simp [filteredRecords] at hr
      rw [master_table_eq parse mapping records hne]
      refine ⟨mkRow parse mapping (_create_child_to_parent_map mapping)
          (filteredRecords records)
          (parentNameFor (_create_child_to_parent_map mapping)
            (filteredRecords records) r),
        List.mem_map.mpr ⟨parentNameFor (_create_child_to_parent_map mapping)
          (filteredRecords records) r,
          mem_parentKeys.mpr ⟨r, hr, rfl⟩, rfl⟩, ?_⟩
      simp only [mkRow, mem_sortedUnique]
      exact List.mem_map.mpr ⟨r, mem_groupMembers.mpr ⟨hr, rfl⟩, hrid⟩
  · rcases records with _ | ⟨r0, rs⟩
    · intro _
      exact List.Pairwise.nil
    · intro hnd
      rw [master_table_eq parse mapping (r0 :: rs) (by simp),
        List.pairwise_map]
      have hkeys : (parentKeys (_create_child_to_parent_map mapping)
          (filteredRecords (r0 :: rs))).Nodup :=
        ((List.perm_insertionSort strLe _).symm).nodup (List.nodup_dedup _)
      refine hkeys.imp ?_
      intro k1 k2 hne v hv1 hv2
      have h1 : v ∈ (groupMembers (_create_child_to_parent_map mapping)
          (filteredRecords (r0 :: rs)) k1).map (·.raw_product_id) := by
        simpa [mkRow, mem_sortedUnique] using hv1
      have h2 : v ∈ (groupMembers (_create_child_to_parent_map mapping)
          (filteredRecords (r0 :: rs)) k2).map (·.raw_product_id) := by
        simpa [mkRow, mem_sortedUnique] using hv2
      obtain ⟨r1, hr1, hrid1⟩ := List.mem_map.mp h1
      obtain ⟨r2, hr2, hrid2⟩ := List.mem_map.mp h2
      obtain ⟨hr1m, hr1p⟩ := mem_groupMembers.mp hr1
      obtain ⟨hr2m, hr2p⟩ := mem_groupMembers.mp hr2
      have heq : r1 = r2 :=
        List.inj_on_of_nodup_map hnd hr1m hr2m (by rw [hrid1, hrid2])
      exact hne (by rw [← hr1p, ← hr2p, heq])

/-- Witness for the amended C5. -/
theorem partition_property_amended_witness :
    (∀ idv, (∃ row ∈ create_parent_child_master_table (fun _ => none) []
        [⟨"1", some "A", none⟩], idv ∈ row.child_product_ids) ↔
      ∃ r ∈ filteredRecords [⟨"1", some "A", none⟩],
        r.raw_product_id = idv) ∧
    (create_parent_child_master_table (fun _ => none) []
        [⟨"1", some "A", none⟩]).Pairwise
      (fun a b => ∀ v, v ∈ a.child_product_ids → v ∉ b.child_product_ids) :=
  ⟨(partition_property_amended (fun _ => none) []
      [⟨"1", some "A", none⟩]).1,
   (partition_property_amended (fun _ => none) []
      [⟨"1", some "A", none⟩]).2 (by decide)⟩

theorem sortedUnique_pairwise_lt (l : List String) :
    (sortedUnique l).Pairwise (· < ·) := by
  have hs : (sortedUnique l).Sorted strLe :=
    List.sorted_insertionSort strLe l.dedup
  have hnd : (sortedUnique l).Nodup :=
    ((List.perm_insertionSort strLe l.dedup).symm).nodup (List.nodup_dedup l)
  have hle : (sortedUnique l).Sorted (· ≤ ·) :=
    hs.imp (fun h => (pyStrLe_iff _ _).mp h)
  exact hle.lt_of_le hnd

/-- C9: the master table is strictly sorted ascending by parent name, and
every row's `child_product_ids` and `child_product_names` lists are
strictly sorted (hence duplicate-free); as the pipeline is a pure function
of its input list, equal inputs give byte-identical output. -/
theorem master_table_sorted_and_duplicate_free (parse : String → Option Nat)
    (mapping : List (String × List String)) (records : List RawRecord) :
    ((create_parent_child_master_table parse mapping records).map
      (·.parent_product_name)).Pairwise (· < ·) ∧
    (create_parent_child_master_table parse mapping records).Forall
      (fun row => row.child_product_ids.Pairwise (· < ·) ∧
        row.child_product_names.Pairwise (· < ·)) := by
  rcases records with _ | ⟨r0, rs⟩
  · exact ⟨List.Pairwise.nil, trivial⟩
  · rw [master_table_eq parse mapping (r0 :: rs) (by simp)]
    constructor
    · rw [List.map_map]
      have : (·.parent_product_name) ∘ (mkRow parse mapping
          (_create_child_to_parent_map mapping)
          (filteredRecords (r0 :: rs))) = id := rfl
      rw [this, List.map_id]
      exact sortedUnique_pairwise_lt _
    · rw [List.forall_iff_forall_mem]
      intro row hrow
      obtain ⟨k, _, hrow'⟩ := List.mem_map.mp hrow
      rw [← hrow']
      exact ⟨sortedUnique_pairwise_lt _, sortedUnique_pairwise_lt _⟩

theorem char_toNat_ofNat {n : Nat} (h : n < 55296) :
    (Char.ofNat n).toNat = n := by
  simp [Char.ofNat, Nat.isValidChar, h, Char.toNat, Char.ofNatAux,
    UInt32.toNat]

theorem pyIsSpace_pyToLower (c : Char) :
    pyIsSpace (pyToLower c) = pyIsSpace c := by
  unfold pyToLower
  by_cases hc : 65 ≤ c.toNat ∧ c.toNat ≤ 90
  · rw [if_pos hc]
    have h1 : (Char.ofNat (c.toNat + 32)).toNat = c.toNat + 32 :=
      char_toNat_ofNat (by omega)
    have h2 : pyIsSpace (Char.ofNat (c.toNat + 32)) = false := by
      simp only [pyIsSpace, h1]
      exact decide_eq_false (by omega)
    have h3 : pyIsSpace c = false := by
      simp only [pyIsSpace]
      exact decide_eq_false (by omega)
    rw [h2, h3]
  · rw [if_neg hc]

theorem pyToLower_idem (c : Char) :
    pyToLower (pyToLower c) = pyToLower c := by
  unfold pyToLower
  by_cases hc : 65 ≤ c.toNat ∧ c.toNat ≤ 90
  · rw [if_pos hc]
    have h1 : (Char.ofNat (c.toNat + 32)).toNat = c.toNat + 32 :=
      char_toNat_ofNat (by omega)
    rw [if_neg (by omega)]
  · rw [if_neg hc, if_neg hc]

theorem pyToLower_space : pyToLower ' ' = ' ' := by decide

theorem collapse_allWsSpace :
    ∀ (l : List Char) (b : Bool), ∀ c ∈ collapseWs l b,
      pyIsSpace c = true → c = ' ' := by
  intro l
  induction l with
  | nil => intro b c hc; simp [collapseWs] at hc
  | cons h t ih =>
    intro b c hc hw
    by_cases hwh : pyIsSpace h = true
    · cases b with
      | true =>
        rw [show collapseWs (h :: t) true = collapseWs t true by
          simp [collapseWs, hwh]] at hc
        exact ih true c hc hw
      | false =>
        rw [show collapseWs (h :: t) false = ' ' :: collapseWs t true by
          simp [collapseWs, hwh]] at hc
        rcases List.mem_cons.mp hc with h1 | h2
        · exact h1
        · exact ih true c h2 hw
    · rw [show collapseWs (h :: t) b = h :: collapseWs t false by
        simp [collapseWs, hwh]] at hc
      rcases List.mem_cons.mp hc with h1 | h2
      · exact absurd (h1 ▸ hw) hwh
      · exact ih false c h2 hw

theorem collapse_props (l : List Char) :
    (collapseWs l false).Chain' noTwoWs ∧
    (collapseWs l true).Chain' noTwoWs ∧
    ∀ c, (collapseWs l true).head? = some c → pyIsSpace c = false := by
  induction l with
  | nil => exact ⟨List.chain'_nil, List.chain'_nil, by simp [collapseWs]⟩
  | cons h t ih =>
    obtain ⟨ihf, iht, ihh⟩ := ih
    by_cases hw : pyIsSpace h = true
    · have e1 : collapseWs (h :: t) false = ' ' :: collapseWs t true := by
        simp [collapseWs, hw]
      have e2 : collapseWs (h :: t) true = collapseWs t true := by
        simp [collapseWs, hw]
      refine ⟨?_, e2 ▸ iht, e2 ▸ ihh⟩
      rw [e1, List.chain'_cons']
      refine ⟨fun y hy => ?_, iht⟩
      rintro ⟨-, hy2⟩
      rw [ihh y hy] at hy2
      exact Bool.false_ne_true hy2
    · have e : ∀ b, collapseWs (h :: t) b = h :: collapseWs t false := by
        intro b; simp [collapseWs, hw]
      have hcond : ∀ y ∈ (collapseWs t false).head?, noTwoWs h y := by
        intro y _
        rintro ⟨h1, -⟩
        exact hw h1
      refine ⟨?_, ?_, ?_⟩
      · rw [e false, List.chain'_cons']
        exact ⟨hcond, ihf⟩
      · rw [e true, List.chain'_cons']
        exact ⟨hcond, ihf⟩
      · rw [e true]
        intro c hcc
        rw [List.head?_cons, Option.some_inj] at hcc
        subst hcc
        exact Bool.not_eq_true _ ▸ hw

theorem collapse_true_eq_false (l : List Char)
    (h : ∀ c, l.head? = some c → pyIsSpace c = false) :
    collapseWs l true = collapseWs l false := by
  cases l with
  | nil => rfl
  | cons c cs =>
    have := h c rfl
    simp [collapseWs, this]

theorem collapse_eq_self (l : List Char)
    (hsp : ∀ c ∈ l, pyIsSpace c = true → c = ' ')
    (hch : l.Chain' noTwoWs) : collapseWs l false = l := by
  induction l with
  | nil => rfl
  | cons c cs ih =>
    obtain ⟨hhead, htail⟩ := List.chain'_cons'.mp hch
    by_cases hw : pyIsSpace c = true
    · have hc : c = ' ' := hsp c (List.mem_cons_self c cs) hw
      have hcs : ∀ d, cs.head? = some d → pyIsSpace d = false := by
        intro d hd
        have := hhead d hd
        by_contra hdd
        rw [Bool.not_eq_false] at hdd
        exact this ⟨hw, hdd⟩
      rw [show collapseWs (c :: cs) false = ' ' :: collapseWs cs true by
        simp [collapseWs, hw], collapse_true_eq_false cs hcs,
        ih (fun d hd hdw => hsp d (List.mem_cons_of_mem _ hd) hdw) htail, hc]
    · rw [show collapseWs (c :: cs) false = c :: collapseWs cs false by
        simp [collapseWs, hw],
        ih (fun d hd hdw => hsp d (List.mem_cons_of_mem _ hd) hdw) htail]

theorem dropTrailingWs_prefix_self (m : List Char) : dropTrailingWs m <+: m := by
  have h : (m.reverse.dropWhile pyIsSpace) <:+ m.reverse :=
    List.dropWhile_suffix pyIsSpace
  have h2 : (m.reverse.dropWhile pyIsSpace).reverse.reverse <:+ m.reverse := by
    rwa [List.reverse_reverse]
  exact List.reverse_suffix.mp h2

theorem pyStripChars_sublist (l : List Char) :
    List.Sublist (pyStripChars l) l :=
  ((dropTrailingWs_prefix_self _).sublist).trans
    (List.dropWhile_suffix pyIsSpace).sublist

theorem head?_dropWhile (p : Char → Bool) (l : List Char) :
    ∀ c, (l.dropWhile p).head? = some c → p c = false := by
  induction l with
  | nil => intro c hc; simp at hc
  | cons a l ih =>
    intro c hc
    by_cases hp : p a
    · rw [List.dropWhile_cons_of_pos hp] at hc
      exact ih c hc
    · rw [List.dropWhile_cons_of_neg hp, List.head?_cons,
        Option.some_inj] at hc
      subst hc
      exact Bool.not_eq_true _ ▸ hp

theorem pyStripChars_head? (l : List Char) :
    ∀ c, (pyStripChars l).head? = some c → pyIsSpace c = false := by
  intro c hc
  obtain ⟨t, ht⟩ := dropTrailingWs_prefix_self (l.dropWhile pyIsSpace)
  have hgoal : (l.dropWhile pyIsSpace).head? = some c := by
    rw [← ht, List.head?_append]
    show (pyStripChars l).head?.or t.head? = some c
    rw [hc]
    rfl
  exact head?_dropWhile pyIsSpace l c hgoal

theorem pyStripChars_getLast? (l : List Char) :
    ∀ c, (pyStripChars l).getLast? = some c → pyIsSpace c = false := by
  intro c hc
  unfold pyStripChars dropTrailingWs at hc
  rw [List.getLast?_reverse] at hc
  exact head?_dropWhile pyIsSpace _ c hc

theorem pyStripChars_chain' {l : List Char} (h : l.Chain' noTwoWs) :
    (pyStripChars l).Chain' noTwoWs :=
  List.Chain'.prefix
    (List.Chain'.suffix h (List.dropWhile_suffix pyIsSpace))
    (dropTrailingWs_prefix_self _)

theorem pyStripChars_eq_self (l : List Char)
    (h1 : ∀ c, l.head? = some c → pyIsSpace c = false)
    (h2 : ∀ c, l.getLast? = some c → pyIsSpace c = false) :
    pyStripChars l = l := by
  have hdw : l.dropWhile pyIsSpace = l := by
    cases l with
    | nil => rfl
    | cons a l => rw [List.dropWhile_cons_of_neg (by rw [h1 a rfl]; simp)]
  have hdt : dropTrailingWs l = l := by
    unfold dropTrailingWs
    cases hr : l.reverse with
    | nil =>
      have hl : l = [] := List.reverse_eq_nil_iff.mp hr
      subst hl
      rfl
    | cons a m =>
      have ha : l.getLast? = some a := by
        rw [← List.head?_reverse, hr, List.head?_cons]
      have haw : pyIsSpace a = false := h2 a ha
      have hdw2 : List.dropWhile pyIsSpace (a :: m) = a :: m :=
        List.dropWhile_cons_of_neg (by simp [haw])
      calc (List.dropWhile pyIsSpace (a :: m)).reverse
          = (a :: m).reverse := by rw [hdw2]
        _ = l.reverse.reverse := by rw [hr]
        _ = l := List.reverse_reverse l
  rw [pyStripChars, hdw, hdt]

/-- C10: the name normalization is idempotent — cleaning an already-cleaned
string changes nothing — and consequently every key of the inverted alias
table built by `_create_child_to_parent_map` is a fixed point of the
cleaning, so looking such a key up with a cleaned record name involves no
further change. -/
theorem normalize_idempotent :
    (∀ s : String, pyClean (pyClean s) = pyClean s) ∧
    ∀ mapping : List (String × List String),
      ∀ kv ∈ _create_child_to_parent_map mapping, pyClean kv.1 = kv.1 := by
  have hmain : ∀ s : String, pyClean (pyClean s) = pyClean s := by
    intro s
    set st := pyStripChars (collapseWs s.data false) with hst
    set u := st.map pyToLower with hu
    have hallst : ∀ c ∈ st, pyIsSpace c = true → c = ' ' := fun c hc hw =>
      collapse_allWsSpace s.data false c ((pyStripChars_sublist _).subset hc)
        hw
    have hsp_u : ∀ c ∈ u, pyIsSpace c = true → c = ' ' := by
      intro c hc hw
      obtain ⟨d, hd, hdc⟩ := List.mem_map.mp hc
      have hwd : pyIsSpace d = true := by
        rw [← pyIsSpace_pyToLower d, hdc]
        exact hw
      rw [← hdc, hallst d hd hwd, pyToLower_space]
    have hch_st : st.Chain' noTwoWs :=
      pyStripChars_chain' (collapse_props s.data).1
    have hch_u : u.Chain' noTwoWs := by
      rw [hu, List.chain'_map]
      refine List.Chain'.imp ?_ hch_st
      intro a b h hcontra
      obtain ⟨h1, h2⟩ := hcontra
      rw [pyIsSpace_pyToLower] at h1 h2
      exact h ⟨h1, h2⟩
    have hh_u : ∀ c, u.head? = some c → pyIsSpace c = false := by
      intro c hc
      rw [hu, List.head?_map] at hc
      cases hst2 : st.head? with
      | none => rw [hst2] at hc; simp at hc
      | some d =>
        rw [hst2] at hc
        simp only [Option.map_some'] at hc
        rw [Option.some_inj] at hc
        rw [← hc, pyIsSpace_pyToLower]
        exact pyStripChars_head? _ d hst2
    have hl_u : ∀ c, u.getLast? = some c → pyIsSpace c = false := by
      intro c hc
      rw [hu, List.getLast?_map] at hc
      cases hst2 : st.getLast? with
      | none => rw [hst2] at hc; simp at hc
      | some d =>
        rw [hst2] at hc
        simp only [Option.map_some'] at hc
        rw [Option.some_inj] at hc
        rw [← hc, pyIsSpace_pyToLower]
        exact pyStripChars_getLast? _ d hst2
    have h1 : collapseWs u false = u := collapse_eq_self u hsp_u hch_u
    have h2 : pyStripChars u = u := pyStripChars_eq_self u hh_u hl_u
    have h3 : u.map pyToLower = u := by
      rw [hu, List.map_map]
      exact List.map_congr_left (fun a _ => pyToLower_idem a)
    have hps : pyClean s = ⟨u⟩ := rfl
    rw [hps]
    show ⟨(pyStripChars (collapseWs u false)).map pyToLower⟩ = (⟨u⟩ : String)
    rw [h1, h2, h3]
  refine ⟨hmain, ?_⟩
  intro mapping
  exact child_to_parent_map_forall mapping (fun pc _ c _ => hmain c)

/-- Witness for C10. -/
theorem normalize_idempotent_witness :
    pyClean (pyClean "  Foo  BAR ") = pyClean "  Foo  BAR " ∧
    pyClean "foo" = "foo" :=
  ⟨normalize_idempotent.1 "  Foo  BAR ",
   normalize_idempotent.2 [("P", ["Foo"])] ("foo", "P") (by decide)⟩

end ProductMapping
